import Mathlib

/-
Verification development for the long-term memory subsystem of the
ai-dial general-purpose agent (task/tools/memory/memory_store.py and the
pydantic data model it uses).

Modelling conventions:
* Python floats (importances, embedding coordinates, similarity scores)
  and POSIX timestamps are modelled as rationals; all arithmetic is exact.
* `faiss.normalize_L2` divides each vector by its Euclidean norm, which
  leaves the rationals; it is modelled as the identity, and theorems that
  depend on cosine similarity carry the hypothesis that the embeddings
  involved are unit vectors (for unit vectors normalisation is the
  identity and cosine similarity is the inner product).
* The FAISS index searches are modelled as exact k-nearest-neighbour
  computations with deterministic tie-breaking by ascending index.
  `IndexFlatIP` ranks by descending inner product; `IndexHNSWFlat(d, 32)`
  is constructed with the default METRIC_L2 metric, so its `search`
  returns squared Euclidean distances in ascending order.  The HNSW
  approximation itself is not modelled (the exact result is taken).
* The blob store, the clock, the embedding model and upload/delete
  failures are passed to each operation as explicit inputs.
-/

/-- Modelled from the spec: the repository file task/tools/memory/_models.py
(imported by memory_store.py but absent from the sources) defines the
user-facing record with `id` (integer derived from the creation timestamp),
`content`, `importance` (float in [0,1]), `category` and `topics`. -/
structure MemoryData where
  id : Int
  content : String
  importance : ℚ
  category : String
  topics : List String
  deriving DecidableEq, Repr

/-- Modelled from the spec: a storage record is a `MemoryData` plus the
embedding vector produced at creation time. -/
structure Memory where
  data : MemoryData
  embedding : List ℚ
  deriving DecidableEq, Repr

/-- Modelled from the spec: a per-user collection: the memories in insertion
order, `updated_at` (set on every save) and the optional
`last_deduplicated_at` (set only after a deduplication pass). -/
structure MemoryCollection where
  memories : List Memory
  updated_at : ℚ
  last_deduplicated_at : Option ℚ
  deriving DecidableEq, Repr

def defaultMemory : Memory := ⟨⟨0, "", 0, "", []⟩, []⟩

/-- Inner product of two vectors (cosine similarity of unit vectors). -/
def innerProd (x y : List ℚ) : ℚ := (x.zipWith (· * ·) y).sum

/-- Squared Euclidean distance, the quantity FAISS returns for METRIC_L2. -/
def sqDist (x y : List ℚ) : ℚ := ((x.zipWith (· - ·) y).map (fun t => t * t)).sum

/-- Squared Euclidean norm; `normSq v = 1` says `v` is a unit vector. -/
def normSq (x : List ℚ) : ℚ := innerProd x x

/-- Python `int(...)` on a float: truncation toward zero. -/
def pyInt (q : ℚ) : Int := if 0 ≤ q then ⌊q⌋ else ⌈q⌉

/-- `memories[i]` (indices produced by the model are always in range;
out-of-range access yields a junk default). -/
def memAt (ms : List Memory) (i : Nat) : Memory := ms.getD i defaultMemory

/-- `memories[i].data.importance`. -/
def impAt (ms : List Memory) (i : Nat) : ℚ := (memAt ms i).data.importance

/-- `memories[i].embedding`. -/
def embAt (ms : List Memory) (i : Nat) : List ℚ := (memAt ms i).embedding

/-- Ordering that ranks by a rational key in descending order and breaks
ties by a natural-number key in ascending order.  All sort orders used by
the model (importance-descending processing order, similarity-descending
search results, distance-ascending FAISS rows) are instances of it. -/
def keyRel (f : α → ℚ) (g : α → Nat) (a b : α) : Prop :=
  f b < f a ∨ (f a = f b ∧ g a ≤ g b)

instance (f : α → ℚ) (g : α → Nat) : DecidableRel (keyRel f g) := fun a b => by
  unfold keyRel; infer_instance

instance (f : α → ℚ) (g : α → Nat) : IsTotal α (keyRel f g) := by
  constructor
  intro a b
  rcases lt_trichotomy (f a) (f b) with h | h | h
  · exact Or.inr (Or.inl h)
  · rcases Nat.le_total (g a) (g b) with hg | hg
    · exact Or.inl (Or.inr ⟨h, hg⟩)
    · exact Or.inr (Or.inr ⟨h.symm, hg⟩)
  · exact Or.inl (Or.inl h)

instance (f : α → ℚ) (g : α → Nat) : IsTrans α (keyRel f g) := by
  constructor
  intro a b c hab hbc
  rcases hab with h1 | ⟨h1, hg1⟩
  · rcases hbc with h2 | ⟨h2, _⟩
    · exact Or.inl (h2.trans h1)
    · exact Or.inl (h2 ▸ h1)
  · rcases hbc with h2 | ⟨h2, hg2⟩
    · exact Or.inl (h1 ▸ h2)
    · exact Or.inr ⟨h1.trans h2, hg1.trans hg2⟩

/-- Rows of FAISS search results sorted by ascending squared L2 distance
(ties by ascending index), the order `IndexHNSWFlat` with METRIC_L2 uses. -/
def ascDistRel : (Nat × ℚ) → (Nat × ℚ) → Prop := keyRel (fun p => -p.2) Prod.fst

instance : DecidableRel ascDistRel := fun a b => by
  unfold ascDistRel; infer_instance

instance : IsTotal (Nat × ℚ) ascDistRel := by
  unfold ascDistRel; infer_instance

instance : IsTrans (Nat × ℚ) ascDistRel := by
  unfold ascDistRel; infer_instance

/-- Rows sorted by descending score (ties by ascending index), the order
`IndexFlatIP` uses. -/
def descSimRel : (Nat × ℚ) → (Nat × ℚ) → Prop := keyRel Prod.snd Prod.fst

instance : DecidableRel descSimRel := fun a b => by
  unfold descSimRel; infer_instance

instance : IsTotal (Nat × ℚ) descSimRel := by
  unfold descSimRel; infer_instance

instance : IsTrans (Nat × ℚ) descSimRel := by
  unfold descSimRel; infer_instance

/-- `sorted(range(len(memories)), key=importance, reverse=True)`: Python's
stable descending sort, i.e. ties keep ascending index order. -/
def importanceOrder (ms : List Memory) : List Nat :=
  List.insertionSort (keyRel (impAt ms) id) (List.range ms.length)

/-- All candidate (index, squared L2 distance) pairs for the HNSW query of
memory `i` in `_deduplicate_fast` (the index holds every embedding). -/
def knnCandidates (ms : List Memory) (i : Nat) : List (Nat × ℚ) :=
  (List.range ms.length).map (fun j => (j, sqDist (embAt ms i) (embAt ms j)))

/-- `indices[i][1:k]` paired with `distances[i][1:k]`: the `k` nearest
entries by the index metric (squared L2 distance), with position 0 dropped
(`# Skip index 0 (self)` in the source). -/
def knnRow (ms : List Memory) (k i : Nat) : List (Nat × ℚ) :=
  ((List.insertionSort ascDistRel (knnCandidates ms i)).take k).drop 1

/-- The inner neighbour loop of `_deduplicate_fast` for memory `i`:
for each `(neighbor_idx, similarity)` entry, if `similarity > 0.75` and the
neighbour is not yet removed, remove the neighbour when
`memories[i].data.importance >= memories[neighbor_idx].data.importance`,
otherwise remove `i` itself and stop (`break`). -/
def processNeighbors (ms : List Memory) (i : Nat) :
    List (Nat × ℚ) → Finset ℕ → Finset ℕ
  | [], rm => rm
  | (nb, d) :: rest, rm =>
    if (3 : ℚ)/4 < d ∧ nb ∉ rm then
      if impAt ms nb ≤ impAt ms i then processNeighbors ms i rest (insert nb rm)
      else insert i rm
    else processNeighbors ms i rest rm

/-- The outer loop of `_deduplicate_fast`: memories are visited in
`importance_order`; an already-removed memory is skipped (`continue`). -/
def markRemovals (ms : List Memory) (rows : Nat → List (Nat × ℚ)) :
    List Nat → Finset ℕ → Finset ℕ
  | [], rm => rm
  | i :: rest, rm =>
    if i ∈ rm then markRemovals ms rows rest rm
    else markRemovals ms rows rest (processNeighbors ms i (rows i) rm)

/-- `[m for idx, m in enumerate(memories) if p idx]`. -/
def filterIdx (p : Nat → Bool) : List α → Nat → List α
  | [], _ => []
  | a :: l, i => if p i then a :: filterIdx p l (i + 1) else filterIdx p l (i + 1)

/-- `LongTermMemoryStore._deduplicate_fast`.  Lists of length at most one
are returned unchanged; otherwise the HNSW index (modelled as exact search
by its METRIC_L2 metric) is queried for `k = min(10, n)` entries per
memory, removals are marked, and the surviving memories are returned in
their original relative order. -/
def deduplicateFast (ms : List Memory) : List Memory :=
  if ms.length ≤ 1 then ms
  else
    let k := min 10 ms.length
    let rm := markRemovals ms (knnRow ms k) (importanceOrder ms) ∅
    filterIdx (fun idx => decide (idx ∉ rm)) ms 0

/-- Neighbour rows as the specification words them: for each memory the
`k = min(10, n)` nearest neighbours excluding itself, ranked by descending
cosine similarity (inner product of unit vectors). -/
def claimNeighborRow (ms : List Memory) (k i : Nat) : List (Nat × ℚ) :=
  (List.insertionSort descSimRel
    (((List.range ms.length).filter (fun j => j != i)).map
      (fun j => (j, innerProd (embAt ms i) (embAt ms j))))).take k

/-- The deduplication pass as the specification words it (for comparison
with `deduplicateFast`): identical marking loop, but the per-memory rows
hold cosine similarities in descending order and the `> 0.75` test is a
test on cosine similarity. -/
def claimDeduplicate (ms : List Memory) : List Memory :=
  if ms.length ≤ 1 then ms
  else
    let k := min 10 ms.length
    let rm := markRemovals ms (claimNeighborRow ms k) (importanceOrder ms) ∅
    filterIdx (fun idx => decide (idx ∉ rm)) ms 0

/-! ## The persistence gateway, cache and facade

`LongTermMemoryStore` talks to a blob store and a process-wide cache and
reads a clock.  One user (one storage path) is modelled; the blob at that
path, the cache entry for it, the clock value, the embedding model and
the success of the fallible backend calls are explicit inputs.  Each
operation returns the new state, the list of observable backend events it
produced (in order), and its outcome. -/

/-- The blob at the user's storage path: absent, present but failing to
decode/parse/validate, or a valid serialized collection. -/
inductive BlobState where
  | absent : BlobState
  | malformed : BlobState
  | stored : MemoryCollection → BlobState
  deriving DecidableEq, Repr

/-- Per-user view of the process state: the persisted blob and the cache
entry for the user's storage path. -/
structure StoreState where
  blob : BlobState
  cache : Option MemoryCollection
  deriving DecidableEq, Repr

/-- Observable effects of one operation. -/
inductive Event where
  | downloadCall : Event
  | uploadCall : MemoryCollection → Event
  | deleteCall : Event
  | dedupCheck : Event
  | dedupRan : Event
  | encodeCall : Event
  deriving DecidableEq, Repr

/-- The fetch-and-deserialize step of `_load_memories` (download, decode,
`json.loads`, `model_validate`): `none` on any failure. -/
def fetchCollection : BlobState → Option MemoryCollection
  | .stored c => some c
  | _ => none

/-- The memory list a fresh load would observe in the persisted blob. -/
def persistedMemories : BlobState → List Memory
  | .stored c => c.memories
  | _ => []

/-- The cache entry (when present) agrees with the persisted blob. -/
def cacheMatchesPersisted (s : StoreState) : Prop :=
  match s.cache with
  | none => True
  | some c => c.memories = persistedMemories s.blob

instance (s : StoreState) : Decidable (cacheMatchesPersisted s) :=
  match s with
  | ⟨_, none⟩ => isTrue trivial
  | ⟨b, some c⟩ =>
    decidable_of_iff (c.memories = persistedMemories b) Iff.rfl

/-- `LongTermMemoryStore._load_memories`: return the cached collection if
present; otherwise try to download and deserialize the blob, fall back to
a fresh empty collection on any failure, cache the result and return it. -/
def loadMemories (now : ℚ) (s : StoreState) :
    StoreState × List Event × MemoryCollection :=
  match s.cache with
  | some c => (s, [], c)
  | none =>
    let c := match fetchCollection s.blob with
      | some c => c
      | none => { memories := [], updated_at := now, last_deduplicated_at := none }
    ({ s with cache := some c }, [Event.downloadCall], c)

/-- `LongTermMemoryStore._save_memories`: stamp `updated_at = now`,
serialize and upload, then put the collection in the cache.  The collection
being saved is the object `_load_memories` returned, which is the object
the cache already holds, so the stamped collection is visible in the cache
even when the upload raises (in-place mutation); the explicit cache put
after a successful upload stores the same object. -/
def saveMemories (now : ℚ) (uploadOk : Bool) (s : StoreState)
    (c : MemoryCollection) : StoreState × List Event × Except Unit Unit :=
  let c2 := { c with updated_at := now }
  let s2 := { s with cache := some c2 }
  if uploadOk then
    ({ s2 with blob := .stored c2 }, [Event.uploadCall c2], .ok ())
  else (s2, [Event.uploadCall c2], .error ())

/-- `LongTermMemoryStore.add_memory`: load, embed the content, build the
new `Memory` with `id = int(datetime.now(UTC).timestamp())`, append it to
the collection (an in-place mutation of the cached object), save, and
return the confirmation; a failed upload propagates as an error. -/
def addMemory (encode : String → List ℚ) (now : ℚ) (uploadOk : Bool)
    (s : StoreState) (content : String) (importance : ℚ) (category : String)
    (topics : List String) : StoreState × List Event × Except Unit String :=
  let r1 := loadMemories now s
  let emb := encode content
  let mem : Memory :=
    { data := { id := pyInt now, content := content, importance := importance,
                category := category, topics := topics }
      embedding := emb }
  let c1 := { r1.2.2 with memories := r1.2.2.memories ++ [mem] }
  let s2 := { r1.1 with cache := some c1 }
  let r2 := saveMemories now uploadOk s2 c1
  match r2.2.2 with
  | .ok _ => (r2.1, r1.2.1 ++ [Event.encodeCall] ++ r2.2.1,
      .ok ("Memory successfully stored: \x27" ++ content ++ "\x27"))
  | .error e => (r2.1, r1.2.1 ++ [Event.encodeCall] ++ r2.2.1, .error e)

/-- `LongTermMemoryStore._needs_deduplication`: at most 10 memories means
no dedup; never deduplicated means dedup; otherwise dedup when more than
`DEDUP_INTERVAL_HOURS = 24` hours have passed. -/
def needsDeduplication (now : ℚ) (c : MemoryCollection) : Bool :=
  if c.memories.length ≤ 10 then false
  else match c.last_deduplicated_at with
    | none => true
    | some t => decide ((now - t) / 3600 > 24)

/-- The collection `search_memories` runs its vector search over: the
loaded collection, after the deduplication pass replaced and stamped it
when `_needs_deduplication` held (`_deduplicate_and_save` sets
`last_deduplicated_at = now`; `_save_memories` sets `updated_at = now`). -/
def postDedupCollection (now : ℚ) (c : MemoryCollection) : MemoryCollection :=
  if needsDeduplication now c then
    { memories := deduplicateFast c.memories
      updated_at := now
      last_deduplicated_at := some now }
  else c

/-- The indices `IndexFlatIP.search` returns for a query vector `q` over
the embedding matrix of `ms`: the `k` best indices by descending inner
product (exact brute-force search; ties by ascending index). -/
def topKIndices (q : List ℚ) (ms : List Memory) (k : Nat) : List Nat :=
  (List.insertionSort (keyRel (fun i => innerProd q (embAt ms i)) id)
    (List.range ms.length)).take k

/-- The vector-search tail of `search_memories`: embed the query, search
the flat inner-product index for `k = min(top_k, n)` results, and map the
indices back to their `MemoryData` (embeddings stripped). -/
def searchCore (encode : String → List ℚ) (s : StoreState) (ev : List Event)
    (c : MemoryCollection) (query : String) (top_k : Nat) :
    StoreState × List Event × Except Unit (List MemoryData) :=
  let q := encode query
  let k := min top_k c.memories.length
  (s, ev ++ [Event.encodeCall],
   .ok ((topKIndices q c.memories k).map (fun i => (memAt c.memories i).data)))

/-- `LongTermMemoryStore.search_memories`: load; return `[]` on an empty
collection; run the dedup trigger check and, when it fires,
`_deduplicate_and_save` (whose failed upload propagates); then run the
exact similarity search. -/
def searchMemories (encode : String → List ℚ) (now : ℚ) (uploadOk : Bool)
    (s : StoreState) (query : String) (top_k : Nat) :
    StoreState × List Event × Except Unit (List MemoryData) :=
  let r1 := loadMemories now s
  let c := r1.2.2
  if c.memories.isEmpty then (r1.1, r1.2.1, .ok [])
  else if needsDeduplication now c then
    let c1 := { c with memories := deduplicateFast c.memories
                       last_deduplicated_at := some now }
    let r2 := saveMemories now uploadOk r1.1 c1
    match r2.2.2 with
    | .ok _ => searchCore encode r2.1
        (r1.2.1 ++ [Event.dedupCheck, Event.dedupRan] ++ r2.2.1)
        { c1 with updated_at := now } query top_k
    | .error e => (r2.1, r1.2.1 ++ [Event.dedupCheck, Event.dedupRan] ++ r2.2.1,
        .error e)
  else searchCore encode r1.1 (r1.2.1 ++ [Event.dedupCheck]) c query top_k

/-- `LongTermMemoryStore.delete_all_memories`: delete the blob with any
exception swallowed (`# File might not exist`), drop the cache entry, and
report success unconditionally. -/
def deleteAllMemories (deleteFails : Bool) (s : StoreState) :
    StoreState × List Event × Except Unit String :=
  let s1 := if deleteFails then s else { s with blob := .absent }
  ({ s1 with cache := none }, [Event.deleteCall],
   .ok "All memories have been successfully deleted.")

/-! ## Concrete data used by witnesses and counterexamples -/

/-- Two memories with identical (unit) embeddings — exact duplicates,
cosine similarity 1 — where the first has the higher importance. -/
def exPair : List Memory :=
  [⟨⟨0, "prefers Python over JavaScript", 9/10, "preferences", []⟩, [1, 0]⟩,
   ⟨⟨1, "likes Python better than JS", 1/10, "preferences", []⟩, [1, 0]⟩]

/-- A rational point of the unit circle below the x-axis,
`((100 - i^2)/(100 + i^2), -20 i/(100 + i^2))`, close to `(1, 0)` for
small `i`. -/
def padMem (idx : Nat) (i : Int) : Memory :=
  ⟨⟨Int.ofNat idx, toString idx, 1/4, "general", []⟩,
   [(100 - i ^ 2) / (100 + i ^ 2), (-20 * i) / (100 + i ^ 2)]⟩

/-- Eleven memories (so `k = 10` truncates the neighbour rows): index 0
and index 1 tie at the maximal importance 1/2 and sit at `(1,0)` and
`(0,1)`; nine filler memories of importance 1/4 cluster near `(1,0)`, all
strictly closer to index 0 than index 1 is, so index 1 is absent from the
truncated neighbour row of index 0 while index 0 is present in the row of
index 1. -/
def exEleven : List Memory :=
  [⟨⟨0, "memory t", 1/2, "general", []⟩, [1, 0]⟩,
   ⟨⟨1, "memory r", 1/2, "general", []⟩, [0, 1]⟩] ++
  (List.range 9).map (fun i => padMem (i + 2) (Int.ofNat i + 1))

/-- An embedding model for witnesses: every text maps to the unit vector
`(1, 0)`. -/
def encW : String → List ℚ := fun _ => [1, 0]

/-- Empty process state: no blob, cold cache. -/
def stEmpty : StoreState := ⟨.absent, none⟩

/-- A warm cache holding one memory, with nothing persisted yet. -/
def stOne : StoreState :=
  ⟨.absent, some ⟨[⟨⟨0, "lives in Paris", 1/2, "personal", []⟩, [1, 0]⟩], 0, none⟩⟩

/-- A warm cache holding the eleven-memory example, never deduplicated. -/
def stEleven : StoreState := ⟨.absent, some ⟨exEleven, 0, none⟩⟩

/-! ## Helper lemmas -/

/-- `keyRel` orders primary keys in descending order. -/
theorem keyRel_imp_ge (f : α → ℚ) (g : α → Nat) {a b : α}
    (h : keyRel f g a b) : f b ≤ f a := by
  rcases h with h | ⟨h, _⟩
  · exact le_of_lt h
  · exact le_of_eq h.symm

theorem sqDist_self (x : List ℚ) : sqDist x x = 0 := by
  induction x with
  | nil => rfl
  | cons a l ih =>
    simp only [sqDist, List.zipWith_cons_cons, List.map_cons, List.sum_cons] at ih ⊢
    rw [sub_self, mul_zero, zero_add]
    exact ih

/-- Every entry of a FAISS row of `_deduplicate_fast` is an in-range index
paired with the true squared L2 distance between the two embeddings. -/
theorem knnRow_mem (ms : List Memory) (k i : Nat) {p : Nat × ℚ}
    (hp : p ∈ knnRow ms k i) :
    p.1 < ms.length ∧ p.2 = sqDist (embAt ms i) (embAt ms p.1) := by
  have h1 : p ∈ List.insertionSort ascDistRel (knnCandidates ms i) :=
    List.take_subset _ _ (List.drop_subset _ _ hp)
  have h2 : p ∈ knnCandidates ms i :=
    (List.perm_insertionSort ascDistRel (knnCandidates ms i)).mem_iff.mp h1
  rcases List.mem_map.mp h2 with ⟨j, hj, rfl⟩
  exact ⟨List.mem_range.mp hj, rfl⟩

theorem importanceOrder_lt (ms : List Memory) :
    ∀ j ∈ importanceOrder ms, j < ms.length := by
  intro j hj
  have := (List.perm_insertionSort (keyRel (impAt ms) id) (List.range ms.length)).mem_iff.mp hj
  exact List.mem_range.mp this

/-- A memory of maximal importance never removes itself while its own
neighbour row is processed: the self entry carries distance `0`, which is
not above the threshold, and no neighbour has strictly larger importance. -/
theorem processNeighbors_not_self (ms : List Memory) (i : Nat)
    (row : List (Nat × ℚ)) (rm : Finset ℕ)
    (hrow : ∀ p ∈ row, p.1 = i → ¬ ((3 : ℚ)/4 < p.2))
    (hmax : ∀ p ∈ row, impAt ms p.1 ≤ impAt ms i)
    (hi : i ∉ rm) :
    i ∉ processNeighbors ms i row rm := by
  induction row generalizing rm with
  | nil => simpa [processNeighbors] using hi
  | cons p rest ih =>
    obtain ⟨nb, d⟩ := p
    simp only [processNeighbors]
    split
    case isTrue h =>
      split
      case isTrue h2 =>
        refine ih _ (fun p hp => hrow p (List.mem_cons_of_mem _ hp))
          (fun p hp => hmax p (List.mem_cons_of_mem _ hp)) ?_
        rw [Finset.mem_insert]
        push_neg
        refine ⟨?_, hi⟩
        intro hne
        exact hrow (nb, d) (List.mem_cons_self _ _) hne.symm h.1
      case isFalse h2 =>
        exact absurd (hmax (nb, d) (List.mem_cons_self _ _)) h2
    case isFalse h =>
      exact ih _ (fun p hp => hrow p (List.mem_cons_of_mem _ hp))
        (fun p hp => hmax p (List.mem_cons_of_mem _ hp)) hi

/-- A not-yet-removed memory of importance strictly above that of the
memory being processed stays un-removed: the processed memory only removes
neighbours of importance at most its own, or itself. -/
theorem processNeighbors_preserves (ms : List Memory) (j : Nat)
    (row : List (Nat × ℚ)) (rm : Finset ℕ) (w : Nat)
    (hw : w ∉ rm) (hlt : impAt ms j < impAt ms w) :
    w ∉ processNeighbors ms j row rm := by
  induction row generalizing rm with
  | nil => simpa [processNeighbors] using hw
  | cons p rest ih =>
    obtain ⟨nb, d⟩ := p
    simp only [processNeighbors]
    split
    case isTrue h =>
      split
      case isTrue h2 =>
        refine ih _ ?_
        rw [Finset.mem_insert]
        push_neg
        refine ⟨?_, hw⟩
        intro hne
        subst hne
        exact absurd hlt (not_lt.mpr h2)
      case isFalse h2 =>
        rw [Finset.mem_insert]
        push_neg
        exact ⟨fun hne => absurd (hne ▸ hlt) (lt_irrefl _), hw⟩
    case isFalse h =>
      exact ih _ hw

/-- Invariant of the outer marking loop: as long as some in-range index of
maximal importance is unmarked, one remains unmarked at the end. -/
theorem markRemovals_inv (ms : List Memory) (rows : Nat → List (Nat × ℚ))
    (M : ℚ)
    (hrows : ∀ i, ∀ p ∈ rows i, p.1 < ms.length ∧
      p.2 = sqDist (embAt ms i) (embAt ms p.1))
    (hM : ∀ j < ms.length, impAt ms j ≤ M) :
    ∀ (order : List Nat) (rm : Finset ℕ),
      (∀ j ∈ order, j < ms.length) →
      (∃ w, w < ms.length ∧ impAt ms w = M ∧ w ∉ rm) →
      ∃ w, w < ms.length ∧ impAt ms w = M ∧ w ∉ markRemovals ms rows order rm := by
  intro order
  induction order with
  | nil =>
    intro rm _ hex
    simpa [markRemovals] using hex
  | cons j rest ih =>
    intro rm horder hex
    simp only [markRemovals]
    split
    case isTrue h =>
      exact ih rm (fun a ha => horder a (List.mem_cons_of_mem _ ha)) hex
    case isFalse h =>
      have hjlt : j < ms.length := horder j (List.mem_cons_self _ _)
      by_cases hj : impAt ms j = M
      · refine ih _ (fun a ha => horder a (List.mem_cons_of_mem _ ha))
          ⟨j, hjlt, hj, ?_⟩
        refine processNeighbors_not_self ms j (rows j) rm ?_ ?_ h
        · intro p hp hpj
          have h2 := (hrows j p hp).2
          rw [hpj] at h2
          rw [h2, sqDist_self]
          norm_num
        · intro p hp
          have h1 := (hrows j p hp).1
          rw [hj]
          exact hM p.1 h1
      · obtain ⟨w, hwlt, hwM, hwrm⟩ := hex
        have hlt : impAt ms j < impAt ms w :=
          hwM ▸ lt_of_le_of_ne (hM j hjlt) hj
        exact ih _ (fun a ha => horder a (List.mem_cons_of_mem _ ha))
          ⟨w, hwlt, hwM, processNeighbors_preserves ms j (rows j) rm w hwrm hlt⟩

theorem filterIdx_sublist (p : Nat → Bool) (l : List α) (i : Nat) :
    (filterIdx p l i).Sublist l := by
  induction l generalizing i with
  | nil => simp [filterIdx]
  | cons a t ih =>
    simp only [filterIdx]
    split
    · exact (ih (i + 1)).cons₂ a
    · exact (ih (i + 1)).cons a

theorem mem_filterIdx (p : Nat → Bool) (l : List α) :
    ∀ (i w : Nat) (h : w < l.length), p (i + w) = true →
      l.get ⟨w, h⟩ ∈ filterIdx p l i := by
  induction l with
  | nil => intro i w h; simp at h
  | cons a t ih =>
    intro i w h hp
    cases w with
    | zero =>
      simp only [List.get]
      simp only [filterIdx]
      rw [Nat.add_zero] at hp
      simp [hp]
    | succ w2 =>
      have h2 : w2 < t.length := by simpa using h
      have hp2 : p ((i + 1) + w2) = true := by
        rw [show (i + 1) + w2 = i + (w2 + 1) by omega]
        exact hp
      have hmem := ih (i + 1) w2 h2 hp2
      simp only [List.get, filterIdx]
      split
      · exact List.mem_cons_of_mem _ hmem
      · exact hmem

theorem memAt_eq_get (ms : List Memory) (j : Nat) (hj : j < ms.length) :
    memAt ms j = ms.get ⟨j, hj⟩ := by
  rw [memAt, List.getD_eq_getElem ms defaultMemory hj, List.get_eq_getElem]

/-! ## Claims about the deduplication pass -/

/-- C10 (amended): for every non-empty list of memories the deduplication
pass returns a non-empty subsequence of the input and some memory of
maximal importance is always retained.  (The further claim that the first
memory in the descending-importance processing order can never be marked
removed is false — see the counterexample — because the removal rule uses
a non-strict importance comparison, so an equally-important memory
processed later can remove the first one when the truncated neighbour rows
are asymmetric.) -/
theorem dedup_keeps_max_importance (ms : List Memory) (h : ms ≠ []) :
    (deduplicateFast ms).Sublist ms ∧ deduplicateFast ms ≠ [] ∧
    ∃ m ∈ deduplicateFast ms, ∀ m2 ∈ ms,
      m2.data.importance ≤ m.data.importance := by
  by_cases hlen : ms.length ≤ 1
  case pos =>
    simp only [deduplicateFast, if_pos hlen]
    have h1 : ms.length = 1 :=
      Nat.le_antisymm hlen (List.length_pos.mpr h)
    obtain ⟨a, rfl⟩ := List.length_eq_one.mp h1
    refine ⟨List.Sublist.refl _, h, a, ?_, ?_⟩
    · simp
    · intro m2 hm2
      rw [List.mem_singleton.mp hm2]
  case neg =>
    simp only [deduplicateFast, if_neg hlen]
    have hpos : 0 < ms.length := by omega
    obtain ⟨w0, hw0mem, hw0max⟩ :=
      Finset.exists_max_image (Finset.range ms.length) (impAt ms)
        ⟨0, Finset.mem_range.mpr hpos⟩
    have hM : ∀ j < ms.length, impAt ms j ≤ impAt ms w0 :=
      fun j hj => hw0max j (Finset.mem_range.mpr hj)
    obtain ⟨w, hwlt, hwM, hwrm⟩ :=
      markRemovals_inv ms (knnRow ms (min 10 ms.length)) (impAt ms w0)
        (fun i p hp => knnRow_mem ms _ i hp) hM
        (importanceOrder ms) ∅ (importanceOrder_lt ms)
        ⟨w0, Finset.mem_range.mp hw0mem, rfl, Finset.not_mem_empty _⟩
    have hmem : ms.get ⟨w, hwlt⟩ ∈
        filterIdx (fun idx => decide
          (idx ∉ markRemovals ms (knnRow ms (min 10 ms.length))
            (importanceOrder ms) ∅)) ms 0 := by
      refine mem_filterIdx _ ms 0 w hwlt ?_
      rw [Nat.zero_add]
      exact decide_eq_true hwrm
    refine ⟨filterIdx_sublist _ ms 0, List.ne_nil_of_mem hmem,
      ms.get ⟨w, hwlt⟩, hmem, ?_⟩
    intro m2 hm2
    obtain ⟨⟨j, hj⟩, rfl⟩ := List.mem_iff_get.mp hm2
    have h1 : impAt ms j ≤ impAt ms w0 := hM j hj
    have h2 : impAt ms j = (ms.get ⟨j, hj⟩).data.importance := by
      rw [impAt, memAt_eq_get ms j hj]
    have h3 : impAt ms w = (ms.get ⟨w, hwlt⟩).data.importance := by
      rw [impAt, memAt_eq_get ms w hwlt]
    rw [← h2, ← h3, hwM]
    exact h1

/-- C10, counterexample to the claim as stated: in `exEleven`, index 0 has
maximal importance and is the first memory in the descending-importance
processing order, yet it is marked removed (by the equally-important index
1, whose truncated neighbour row contains index 0 while the row of index 0
does not contain index 1), so its memory is absent from the result. -/
theorem first_processed_can_be_removed :
    (importanceOrder exEleven).headI = 0 ∧
    (∀ m ∈ exEleven, m.data.importance ≤ impAt exEleven 0) ∧
    memAt exEleven 0 ∉ deduplicateFast exEleven :=
  ⟨by with_unfolding_all rfl,
   of_decide_eq_true (by with_unfolding_all rfl),
   of_decide_eq_true (by with_unfolding_all rfl)⟩

/-- C10, witness for the amended theorem at a concrete input. -/
theorem dedup_keeps_max_importance_witness :
    (deduplicateFast exPair).Sublist exPair ∧ deduplicateFast exPair ≠ [] ∧
    ∃ m ∈ deduplicateFast exPair, ∀ m2 ∈ exPair,
      m2.data.importance ≤ m.data.importance :=
  dedup_keeps_max_importance exPair (by simp [exPair])

/-- C1 (code bug): the deduplication pass evaluated at two memories that
are exact duplicates (identical unit embeddings, cosine similarity `1`)
with importances `0.9` and `0.1`.  The claim mandates that the
lower-importance duplicate be marked removed (`similarity 1 > 0.75` and
`0.9 >= 0.1`), and the spec-worded pass `claimDeduplicate` does exactly
that; but `_deduplicate_fast` compares the value FAISS returns for its
`IndexHNSWFlat` — a squared L2 distance, `0` here, since the index is
built with the default `METRIC_L2` — against the `0.75` threshold, so the
test `similarity > 0.75` is false and both memories are kept. -/
theorem dedup_threshold_metric_bug :
    deduplicateFast exPair = exPair ∧
    claimDeduplicate exPair =
      [⟨⟨0, "prefers Python over JavaScript", 9/10, "preferences", []⟩, [1, 0]⟩] ∧
    innerProd (embAt exPair 0) (embAt exPair 1) = 1 ∧
    sqDist (embAt exPair 0) (embAt exPair 1) = 0 ∧
    normSq (embAt exPair 0) = 1 ∧ normSq (embAt exPair 1) = 1 ∧
    impAt exPair 0 = 9/10 ∧ impAt exPair 1 = 1/10 :=
  ⟨by with_unfolding_all rfl, by with_unfolding_all rfl,
   by with_unfolding_all rfl, by with_unfolding_all rfl,
   by with_unfolding_all rfl, by with_unfolding_all rfl,
   by with_unfolding_all rfl, by with_unfolding_all rfl⟩

/-! ## Claims about the facade operations -/

theorem loadMemories_events (now : ℚ) (s : StoreState) :
    (loadMemories now s).2.1 = [] ∨
    (loadMemories now s).2.1 = [Event.downloadCall] := by
  rcases s with ⟨b, c⟩
  cases c
  · right; rfl
  · left; rfl

theorem dedupRan_not_in_load (now : ℚ) (s : StoreState) :
    Event.dedupRan ∉ (loadMemories now s).2.1 := by
  rcases loadMemories_events now s with h | h <;> rw [h] <;> simp

theorem dedupCheck_not_in_load (now : ℚ) (s : StoreState) :
    Event.dedupCheck ∉ (loadMemories now s).2.1 := by
  rcases loadMemories_events now s with h | h <;> rw [h] <;> simp

theorem encodeCall_not_in_load (now : ℚ) (s : StoreState) :
    Event.encodeCall ∉ (loadMemories now s).2.1 := by
  rcases loadMemories_events now s with h | h <;> rw [h] <;> simp

/-- After a load the cache holds exactly the returned collection. -/
theorem loadMemories_puts (now : ℚ) (s : StoreState) :
    (loadMemories now s).1.cache = some (loadMemories now s).2.2 := by
  rcases s with ⟨b, c⟩
  cases c
  · rfl
  · rfl

/-- The trigger test of `_needs_deduplication`, characterised. -/
theorem needsDeduplication_iff (now : ℚ) (c : MemoryCollection) :
    needsDeduplication now c = true ↔
      (10 < c.memories.length ∧ (c.last_deduplicated_at = none ∨
        ∃ t, c.last_deduplicated_at = some t ∧ 24 < (now - t) / 3600)) := by
  unfold needsDeduplication
  by_cases h : c.memories.length ≤ 10
  · rw [if_pos h]
    constructor
    · intro hft
      cases hft
    · rintro ⟨h10, -⟩
      exact absurd h10 (by omega)
  · rw [if_neg h]
    cases hl : c.last_deduplicated_at with
    | none =>
      constructor
      · intro _
        exact ⟨by omega, Or.inl rfl⟩
      · intro _
        rfl
    | some t =>
      simp only [hl, decide_eq_true_eq]
      constructor
      · intro hgt
        exact ⟨by omega, Or.inr ⟨t, rfl, hgt⟩⟩
      · rintro ⟨-, h2 | ⟨t2, ht2, hgt⟩⟩
        · cases h2
        · cases ht2
          exact hgt

theorem needsDeduplication_length (now : ℚ) (c : MemoryCollection)
    (h : needsDeduplication now c = true) : 10 < c.memories.length :=
  ((needsDeduplication_iff now c).mp h).1

/-- The full event trace of a search, by cases on the empty-collection
early return, the dedup trigger and the upload outcome. -/
theorem searchMemories_events (encode : String → List ℚ) (now : ℚ)
    (uploadOk : Bool) (s : StoreState) (query : String) (top_k : Nat) :
    (searchMemories encode now uploadOk s query top_k).2.1 =
      if (loadMemories now s).2.2.memories.isEmpty then (loadMemories now s).2.1
      else if needsDeduplication now (loadMemories now s).2.2 then
        (loadMemories now s).2.1 ++ [Event.dedupCheck, Event.dedupRan] ++
          [Event.uploadCall
            ⟨deduplicateFast (loadMemories now s).2.2.memories, now, some now⟩] ++
          (if uploadOk then [Event.encodeCall] else [])
      else (loadMemories now s).2.1 ++ [Event.dedupCheck] ++ [Event.encodeCall] := by
  simp only [searchMemories]
  by_cases hemp : (loadMemories now s).2.2.memories.isEmpty
  · rw [if_pos hemp, if_pos hemp]
  · rw [if_neg hemp, if_neg hemp]
    by_cases hd : needsDeduplication now (loadMemories now s).2.2 = true
    · rw [if_pos hd, if_pos hd]
      cases uploadOk
      · simp [saveMemories, searchCore]
      · simp [saveMemories, searchCore]
    · rw [if_neg hd, if_neg hd]
      simp [searchCore]

/-- C2: the deduplication pass runs during a search exactly when the
loaded collection has strictly more than 10 memories and it was never
deduplicated or more than 24 hours have passed since; the add operation
never runs (or even checks for) deduplication. -/
theorem dedup_trigger_policy (encode : String → List ℚ) (now : ℚ)
    (uploadOk : Bool) (s : StoreState) (query content category : String)
    (importance : ℚ) (topics : List String) (top_k : Nat) :
    (Event.dedupRan ∈ (searchMemories encode now uploadOk s query top_k).2.1 ↔
      (10 < (loadMemories now s).2.2.memories.length ∧
        ((loadMemories now s).2.2.last_deduplicated_at = none ∨
          ∃ t, (loadMemories now s).2.2.last_deduplicated_at = some t ∧
            24 < (now - t) / 3600))) ∧
    Event.dedupRan ∉
      (addMemory encode now uploadOk s content importance category topics).2.1 ∧
    Event.dedupCheck ∉
      (addMemory encode now uploadOk s content importance category topics).2.1 := by
  refine ⟨?_, ?_, ?_⟩
  · rw [searchMemories_events, ← needsDeduplication_iff now (loadMemories now s).2.2]
    by_cases hemp : (loadMemories now s).2.2.memories.isEmpty
    · rw [if_pos hemp]
      constructor
      · intro hmem
        exact absurd hmem (dedupRan_not_in_load now s)
      · intro hd
        have h10 := needsDeduplication_length now _ hd
        rw [List.isEmpty_iff] at hemp
        rw [hemp] at h10
        simp at h10
    · rw [if_neg hemp]
      by_cases hd : needsDeduplication now (loadMemories now s).2.2 = true
      · rw [if_pos hd]
        simp [hd, List.mem_append]
      · rw [if_neg hd]
        constructor
        · intro hmem
          rcases List.mem_append.mp hmem with hmem1 | hmem2
          · rcases List.mem_append.mp hmem1 with hmem3 | hmem4
            · exact absurd hmem3 (dedupRan_not_in_load now s)
            · simp at hmem4
          · simp at hmem2
        · intro hx
          exact absurd hx hd
  · cases uploadOk <;>
      simp [addMemory, saveMemories, List.mem_append, dedupRan_not_in_load]
  · cases uploadOk <;>
      simp [addMemory, saveMemories, List.mem_append, dedupCheck_not_in_load]

/-- C2, witness: a concrete state with eleven memories and no
`last_deduplicated_at` triggers the dedup pass during search, and a
concrete add emits no dedup events. -/
theorem dedup_trigger_policy_witness :
    (Event.dedupRan ∈ (searchMemories encW 0 true stEleven "q" 5).2.1 ↔
      (10 < (loadMemories 0 stEleven).2.2.memories.length ∧
        ((loadMemories 0 stEleven).2.2.last_deduplicated_at = none ∨
          ∃ t, (loadMemories 0 stEleven).2.2.last_deduplicated_at = some t ∧
            24 < ((0 : ℚ) - t) / 3600))) ∧
    Event.dedupRan ∉ (addMemory encW 0 true stEleven "x" (1/2) "g" []).2.1 ∧
    Event.dedupCheck ∉ (addMemory encW 0 true stEleven "x" (1/2) "g" []).2.1 :=
  dedup_trigger_policy encW 0 true stEleven "q" "x" "g" (1/2) [] 5

/-- C9: when the loaded collection is empty, search returns an empty
result with no error, leaving the state as the load left it, and does so
before the dedup trigger check, before any dedup pass and before any
embedding computation (no such event is emitted). -/
theorem search_empty_returns_empty (encode : String → List ℚ) (now : ℚ)
    (uploadOk : Bool) (s : StoreState) (query : String) (top_k : Nat)
    (h : (loadMemories now s).2.2.memories = []) :
    searchMemories encode now uploadOk s query top_k =
      ((loadMemories now s).1, (loadMemories now s).2.1, .ok []) ∧
    Event.dedupCheck ∉ (searchMemories encode now uploadOk s query top_k).2.1 ∧
    Event.dedupRan ∉ (searchMemories encode now uploadOk s query top_k).2.1 ∧
    Event.encodeCall ∉ (searchMemories encode now uploadOk s query top_k).2.1 := by
  have hemp : (loadMemories now s).2.2.memories.isEmpty := by
    rw [List.isEmpty_iff]
    exact h
  have heq : searchMemories encode now uploadOk s query top_k =
      ((loadMemories now s).1, (loadMemories now s).2.1, .ok []) := by
    simp only [searchMemories]
    rw [if_pos hemp]
  refine ⟨heq, ?_, ?_, ?_⟩ <;> rw [heq]
  · exact dedupCheck_not_in_load now s
  · exact dedupRan_not_in_load now s
  · exact encodeCall_not_in_load now s

/-- C9, witness at the empty initial state. -/
theorem search_empty_returns_empty_witness :
    searchMemories encW 0 true stEmpty "q" 5 =
      ((loadMemories 0 stEmpty).1, (loadMemories 0 stEmpty).2.1, .ok []) ∧
    Event.dedupCheck ∉ (searchMemories encW 0 true stEmpty "q" 5).2.1 ∧
    Event.dedupRan ∉ (searchMemories encW 0 true stEmpty "q" 5).2.1 ∧
    Event.encodeCall ∉ (searchMemories encW 0 true stEmpty "q" 5).2.1 :=
  search_empty_returns_empty encW 0 true stEmpty "q" 5 rfl

/-- C7: whenever the dedup pass runs during a search, the consolidated
collection (the deduplicated memories, `last_deduplicated_at = now`,
`updated_at = now`) replaces the cached in-memory collection, the save is
attempted immediately (an upload of exactly that collection is emitted),
and on a successful upload it is persisted. -/
theorem dedup_replaces_stamps_saves (encode : String → List ℚ) (now : ℚ)
    (uploadOk : Bool) (s : StoreState) (query : String) (top_k : Nat)
    (hne : (loadMemories now s).2.2.memories ≠ [])
    (hd : needsDeduplication now (loadMemories now s).2.2 = true) :
    Event.dedupRan ∈ (searchMemories encode now uploadOk s query top_k).2.1 ∧
    Event.uploadCall
        ⟨deduplicateFast (loadMemories now s).2.2.memories, now, some now⟩ ∈
      (searchMemories encode now uploadOk s query top_k).2.1 ∧
    (searchMemories encode now uploadOk s query top_k).1.cache =
      some ⟨deduplicateFast (loadMemories now s).2.2.memories, now, some now⟩ ∧
    (uploadOk = true →
      (searchMemories encode now uploadOk s query top_k).1.blob =
        .stored ⟨deduplicateFast (loadMemories now s).2.2.memories, now, some now⟩) := by
  have hemp : ¬ ((loadMemories now s).2.2.memories.isEmpty = true) :=
    fun hx => hne (List.isEmpty_iff.mp hx)
  simp only [searchMemories]
  rw [if_neg hemp, if_pos hd]
  cases uploadOk <;> refine ⟨?_, ?_, ?_, ?_⟩ <;>
    simp [saveMemories, searchCore, List.mem_append]

/-- C7, witness: the eleven-memory, never-deduplicated state triggers. -/
theorem dedup_replaces_stamps_saves_witness :
    Event.dedupRan ∈ (searchMemories encW 0 true stEleven "q" 5).2.1 ∧
    Event.uploadCall
        ⟨deduplicateFast (loadMemories 0 stEleven).2.2.memories, 0, some 0⟩ ∈
      (searchMemories encW 0 true stEleven "q" 5).2.1 ∧
    (searchMemories encW 0 true stEleven "q" 5).1.cache =
      some ⟨deduplicateFast (loadMemories 0 stEleven).2.2.memories, 0, some 0⟩ ∧
    (true = true →
      (searchMemories encW 0 true stEleven "q" 5).1.blob =
        .stored ⟨deduplicateFast (loadMemories 0 stEleven).2.2.memories, 0, some 0⟩) :=
  dedup_replaces_stamps_saves encW 0 true stEleven "q" 5
    (of_decide_eq_true (by with_unfolding_all rfl)) (by with_unfolding_all rfl)

/-- C4: on a cache miss where the fetch-and-deserialize step fails (the
blob is absent or malformed), the load returns a fresh empty collection —
`memories = []`, `updated_at = now`, no `last_deduplicated_at` — caches
it, and, being a total function in the model, raises nothing. -/
theorem load_failure_gives_empty (now : ℚ) (s : StoreState)
    (hmiss : s.cache = none) (hfail : fetchCollection s.blob = none) :
    loadMemories now s =
      ({ s with cache := some ⟨[], now, none⟩ }, [Event.downloadCall],
        ⟨[], now, none⟩) := by
  rcases s with ⟨b, c⟩
  simp only [StoreState.cache] at hmiss
  subst hmiss
  simp only [StoreState.blob] at hfail
  simp [loadMemories, hfail]

/-- C4, witness: a present-but-malformed blob degrades to the empty
collection. -/
theorem load_failure_gives_empty_witness :
    loadMemories 7 ⟨BlobState.malformed, none⟩ =
      ({ blob := BlobState.malformed, cache := some ⟨[], 7, none⟩ },
        [Event.downloadCall], ⟨[], 7, none⟩) :=
  load_failure_gives_empty 7 ⟨BlobState.malformed, none⟩ rfl rfl

/-- C5: add loads the collection, embeds the content, appends a new
memory with id `int(now)` and the given fields at the end, and saves the
whole collection stamped with `updated_at = now`; it returns the
confirmation exactly when the upload succeeds, and propagates an error
(with no confirmation) when the upload fails. -/
theorem add_appends_and_saves (encode : String → List ℚ) (now : ℚ)
    (uploadOk : Bool) (s : StoreState) (content : String) (importance : ℚ)
    (category : String) (topics : List String) :
    ((∃ msg, (addMemory encode now uploadOk s content importance category
        topics).2.2 = .ok msg) ↔ uploadOk = true) ∧
    Event.encodeCall ∈
      (addMemory encode now uploadOk s content importance category topics).2.1 ∧
    Event.uploadCall
        ⟨(loadMemories now s).2.2.memories ++
            [⟨⟨pyInt now, content, importance, category, topics⟩, encode content⟩],
          now, (loadMemories now s).2.2.last_deduplicated_at⟩ ∈
      (addMemory encode now uploadOk s content importance category topics).2.1 ∧
    (uploadOk = true →
      (addMemory encode now uploadOk s content importance category topics).2.2 =
        .ok ("Memory successfully stored: \x27" ++ content ++ "\x27") ∧
      (addMemory encode now uploadOk s content importance category topics).1.blob =
        .stored ⟨(loadMemories now s).2.2.memories ++
            [⟨⟨pyInt now, content, importance, category, topics⟩, encode content⟩],
          now, (loadMemories now s).2.2.last_deduplicated_at⟩ ∧
      (addMemory encode now uploadOk s content importance category topics).1.cache =
        some ⟨(loadMemories now s).2.2.memories ++
            [⟨⟨pyInt now, content, importance, category, topics⟩, encode content⟩],
          now, (loadMemories now s).2.2.last_deduplicated_at⟩) ∧
    (uploadOk = false →
      (addMemory encode now uploadOk s content importance category topics).2.2 =
        .error ()) := by
  cases uploadOk <;> refine ⟨?_, ?_, ?_, ?_, ?_⟩ <;>
    simp [addMemory, saveMemories, List.mem_append]

/-- C5, witness at a concrete successful add. -/
theorem add_appends_and_saves_witness :
    ((∃ msg, (addMemory encW 5 true stEmpty "likes tea" (1/2) "pref"
        []).2.2 = .ok msg) ↔ true = true) ∧
    Event.encodeCall ∈ (addMemory encW 5 true stEmpty "likes tea" (1/2) "pref" []).2.1 ∧
    Event.uploadCall
        ⟨(loadMemories 5 stEmpty).2.2.memories ++
            [⟨⟨pyInt 5, "likes tea", 1/2, "pref", []⟩, encW "likes tea"⟩],
          5, (loadMemories 5 stEmpty).2.2.last_deduplicated_at⟩ ∈
      (addMemory encW 5 true stEmpty "likes tea" (1/2) "pref" []).2.1 ∧
    (true = true →
      (addMemory encW 5 true stEmpty "likes tea" (1/2) "pref" []).2.2 =
        .ok ("Memory successfully stored: \x27" ++ "likes tea" ++ "\x27") ∧
      (addMemory encW 5 true stEmpty "likes tea" (1/2) "pref" []).1.blob =
        .stored ⟨(loadMemories 5 stEmpty).2.2.memories ++
            [⟨⟨pyInt 5, "likes tea", 1/2, "pref", []⟩, encW "likes tea"⟩],
          5, (loadMemories 5 stEmpty).2.2.last_deduplicated_at⟩ ∧
      (addMemory encW 5 true stEmpty "likes tea" (1/2) "pref" []).1.cache =
        some ⟨(loadMemories 5 stEmpty).2.2.memories ++
            [⟨⟨pyInt 5, "likes tea", 1/2, "pref", []⟩, encW "likes tea"⟩],
          5, (loadMemories 5 stEmpty).2.2.last_deduplicated_at⟩) ∧
    (true = false →
      (addMemory encW 5 true stEmpty "likes tea" (1/2) "pref" []).2.2 =
        .error ()) :=
  add_appends_and_saves encW 5 true stEmpty "likes tea" (1/2) "pref" []

/-- C6: deleteAll always reports success (also when nothing was there to
delete), always drops the cache entry, removes the blob whenever the
backend delete does not fail, and a delete with no blob present leaves the
blob absent (the raised not-found error is swallowed). -/
theorem delete_all_always_succeeds (deleteFails : Bool) (s : StoreState) :
    (deleteAllMemories deleteFails s).2.2 =
      .ok "All memories have been successfully deleted." ∧
    (deleteAllMemories deleteFails s).1.cache = none ∧
    (deleteFails = false → (deleteAllMemories deleteFails s).1.blob = .absent) ∧
    (s.blob = .absent → (deleteAllMemories deleteFails s).1.blob = .absent) := by
  cases deleteFails <;> refine ⟨rfl, rfl, ?_, ?_⟩ <;> simp [deleteAllMemories]

/-- C6, witness: deleting when nothing exists (and the backend call
raises) still reports success. -/
theorem delete_all_always_succeeds_witness :
    (deleteAllMemories true stEmpty).2.2 =
      .ok "All memories have been successfully deleted." ∧
    (deleteAllMemories true stEmpty).1.cache = none ∧
    (true = false → (deleteAllMemories true stEmpty).1.blob = .absent) ∧
    (stEmpty.blob = .absent → (deleteAllMemories true stEmpty).1.blob = .absent) :=
  delete_all_always_succeeds true stEmpty

/-- C8, counterexample to the claim as stated: an add whose upload fails
is an operation of the facade after which the cache diverges from the
persisted state — the appended memory lives in the cached collection
(the loaded collection is mutated in place, and the cache holds that very
object) while the blob still holds nothing. -/
theorem cache_divergence_after_failed_save :
    (addMemory encW 5 false stEmpty "likes tea" (1/2) "pref" []).2.2 =
      .error () ∧
    ¬ cacheMatchesPersisted
      (addMemory encW 5 false stEmpty "likes tea" (1/2) "pref" []).1 :=
  ⟨by with_unfolding_all rfl, of_decide_eq_true (by with_unfolding_all rfl)⟩

/-- C8 (amended): every delete drops the cache entry; every load leaves
the cache holding exactly the collection it returned; a successful save
puts the stamped collection in the cache and persists the very same
collection, so the cache matches the persisted state, and in particular a
successful add re-establishes cache/blob agreement.  (The original
unqualified statement — after EVERY operation the cache never diverges —
fails for a failed save; see the counterexample.) -/
theorem cache_update_discipline (encode : String → List ℚ) (now : ℚ)
    (s : StoreState) (c : MemoryCollection) (deleteFails : Bool)
    (content category : String) (importance : ℚ) (topics : List String) :
    (deleteAllMemories deleteFails s).1.cache = none ∧
    (loadMemories now s).1.cache = some (loadMemories now s).2.2 ∧
    (saveMemories now true s c).1.cache =
      some ⟨c.memories, now, c.last_deduplicated_at⟩ ∧
    (saveMemories now true s c).1.blob =
      .stored ⟨c.memories, now, c.last_deduplicated_at⟩ ∧
    cacheMatchesPersisted (saveMemories now true s c).1 ∧
    cacheMatchesPersisted
      (addMemory encode now true s content importance category topics).1 := by
  refine ⟨rfl, loadMemories_puts now s, rfl, rfl, ?_, ?_⟩
  · simp [saveMemories, cacheMatchesPersisted, persistedMemories]
  · simp [addMemory, saveMemories, cacheMatchesPersisted, persistedMemories]

theorem topKIndices_length (q : List ℚ) (ms : List Memory) (k : Nat) :
    (topKIndices q ms k).length = min k ms.length := by
  rw [topKIndices, List.length_take,
    (List.perm_insertionSort _ _).length_eq, List.length_range]

theorem topKIndices_lt (q : List ℚ) (ms : List Memory) (k : Nat) :
    ∀ i ∈ topKIndices q ms k, i < ms.length := by
  intro i hi
  have h1 := List.take_subset _ _ hi
  have h2 := (List.perm_insertionSort
    (keyRel (fun i => innerProd q (embAt ms i)) id) (List.range ms.length)).mem_iff.mp h1
  exact List.mem_range.mp h2

theorem topKIndices_sorted (q : List ℚ) (ms : List Memory) (k : Nat) :
    List.Sorted (fun a b : ℚ => b ≤ a)
      ((topKIndices q ms k).map (fun i => innerProd q (embAt ms i))) := by
  have hs : List.Sorted (keyRel (fun i => innerProd q (embAt ms i)) id)
      (List.insertionSort (keyRel (fun i => innerProd q (embAt ms i)) id)
        (List.range ms.length)) :=
    List.sorted_insertionSort _ _
  have ht : List.Pairwise (keyRel (fun i => innerProd q (embAt ms i)) id)
      (topKIndices q ms k) :=
    hs.sublist (List.take_sublist k _)
  exact List.Pairwise.map (fun i => innerProd q (embAt ms i))
    (fun a b hab => keyRel_imp_ge (fun i => innerProd q (embAt ms i)) id hab) ht

/-- The `.ok` result a search produces when the loaded collection is not
empty: the top-`min(top_k, n)` memory records of the (possibly
deduplicated and stamped) collection, ranked by the flat inner-product
index. -/
theorem searchMemories_ok_result (encode : String → List ℚ) (now : ℚ)
    (uploadOk : Bool) (s : StoreState) (query : String) (top_k : Nat)
    (hok : (searchMemories encode now uploadOk s query top_k).2.2 ≠ .error ())
    (hne : (loadMemories now s).2.2.memories ≠ []) :
    (searchMemories encode now uploadOk s query top_k).2.2 =
      .ok ((topKIndices (encode query)
          (postDedupCollection now (loadMemories now s).2.2).memories
          (min top_k
            (postDedupCollection now (loadMemories now s).2.2).memories.length)).map
        (fun i =>
          (memAt (postDedupCollection now (loadMemories now s).2.2).memories i).data)) := by
  have hemp : ¬ ((loadMemories now s).2.2.memories.isEmpty = true) :=
    fun hx => hne (List.isEmpty_iff.mp hx)
  simp only [searchMemories] at hok ⊢
  rw [if_neg hemp] at hok ⊢
  simp only [postDedupCollection]
  by_cases hd : needsDeduplication now (loadMemories now s).2.2 = true
  · rw [if_pos hd] at hok ⊢
    rw [if_pos hd]
    cases uploadOk
    · exfalso
      apply hok
      simp [saveMemories]
    · simp [saveMemories, searchCore]
  · rw [if_neg hd] at hok ⊢
    rw [if_neg hd]
    simp [searchCore]

/-- C3: for a non-empty loaded collection (with unit-norm embeddings, so
that the inner product used by the flat index is the cosine similarity),
a search operation that completes returns exactly `min(top_k, n)` results,
`n` the collection size after any triggered deduplication replaced the
collection; every result is the `MemoryData` of a collection member with
the embedding stripped; and the ranked indices carry descending cosine
similarity between the query embedding and the stored embeddings, best
match first. -/
theorem search_returns_ranked_topk (encode : String → List ℚ) (now : ℚ)
    (uploadOk : Bool) (s : StoreState) (query : String) (top_k : Nat)
    (hok : (searchMemories encode now uploadOk s query top_k).2.2 ≠ .error ())
    (hne : (loadMemories now s).2.2.memories ≠ [])
    (hq : normSq (encode query) = 1)
    (hv : ∀ m ∈ (loadMemories now s).2.2.memories, normSq m.embedding = 1) :
    (searchMemories encode now uploadOk s query top_k).2.2 =
      .ok ((topKIndices (encode query)
          (postDedupCollection now (loadMemories now s).2.2).memories
          (min top_k
            (postDedupCollection now (loadMemories now s).2.2).memories.length)).map
        (fun i =>
          (memAt (postDedupCollection now (loadMemories now s).2.2).memories i).data)) ∧
    ((topKIndices (encode query)
        (postDedupCollection now (loadMemories now s).2.2).memories
        (min top_k
          (postDedupCollection now (loadMemories now s).2.2).memories.length)).map
      (fun i =>
        (memAt (postDedupCollection now (loadMemories now s).2.2).memories i).data)).length =
      min top_k (postDedupCollection now (loadMemories now s).2.2).memories.length ∧
    (∀ x ∈ (topKIndices (encode query)
        (postDedupCollection now (loadMemories now s).2.2).memories
        (min top_k
          (postDedupCollection now (loadMemories now s).2.2).memories.length)).map
      (fun i =>
        (memAt (postDedupCollection now (loadMemories now s).2.2).memories i).data),
      ∃ m ∈ (postDedupCollection now (loadMemories now s).2.2).memories,
        x = m.data) ∧
    List.Sorted (fun a b : ℚ => b ≤ a)
      ((topKIndices (encode query)
          (postDedupCollection now (loadMemories now s).2.2).memories
          (min top_k
            (postDedupCollection now (loadMemories now s).2.2).memories.length)).map
        (fun i => innerProd (encode query)
          (embAt (postDedupCollection now (loadMemories now s).2.2).memories i))) := by
  refine ⟨searchMemories_ok_result encode now uploadOk s query top_k hok hne,
    ?_, ?_, topKIndices_sorted _ _ _⟩
  · rw [List.length_map, topKIndices_length]
    omega
  · intro x hx
    rcases List.mem_map.mp hx with ⟨i, hi, rfl⟩
    have hlt := topKIndices_lt _ _ _ i hi
    refine ⟨memAt (postDedupCollection now (loadMemories now s).2.2).memories i,
      ?_, rfl⟩
    rw [memAt_eq_get _ i hlt]
    exact List.get_mem _ _ _

/-- C3, witness: a one-memory collection searched with `top_k = 5`
returns its single record. -/
theorem search_returns_ranked_topk_witness :
    (searchMemories encW 0 true stOne "q" 5).2.2 =
      .ok ((topKIndices (encW "q")
          (postDedupCollection 0 (loadMemories 0 stOne).2.2).memories
          (min 5
            (postDedupCollection 0 (loadMemories 0 stOne).2.2).memories.length)).map
        (fun i =>
          (memAt (postDedupCollection 0 (loadMemories 0 stOne).2.2).memories i).data)) ∧
    ((topKIndices (encW "q")
        (postDedupCollection 0 (loadMemories 0 stOne).2.2).memories
        (min 5
          (postDedupCollection 0 (loadMemories 0 stOne).2.2).memories.length)).map
      (fun i =>
        (memAt (postDedupCollection 0 (loadMemories 0 stOne).2.2).memories i).data)).length =
      min 5 (postDedupCollection 0 (loadMemories 0 stOne).2.2).memories.length ∧
    (∀ x ∈ (topKIndices (encW "q")
        (postDedupCollection 0 (loadMemories 0 stOne).2.2).memories
        (min 5
          (postDedupCollection 0 (loadMemories 0 stOne).2.2).memories.length)).map
      (fun i =>
        (memAt (postDedupCollection 0 (loadMemories 0 stOne).2.2).memories i).data),
      ∃ m ∈ (postDedupCollection 0 (loadMemories 0 stOne).2.2).memories,
        x = m.data) ∧
    List.Sorted (fun a b : ℚ => b ≤ a)
      ((topKIndices (encW "q")
          (postDedupCollection 0 (loadMemories 0 stOne).2.2).memories
          (min 5
            (postDedupCollection 0 (loadMemories 0 stOne).2.2).memories.length)).map
        (fun i => innerProd (encW "q")
          (embAt (postDedupCollection 0 (loadMemories 0 stOne).2.2).memories i))) :=
  search_returns_ranked_topk encW 0 true stOne "q" 5
    (by
      have h1 : (searchMemories encW 0 true stOne "q" 5).2.2 =
          .ok [⟨0, "lives in Paris", 1/2, "personal", []⟩] := by
        with_unfolding_all rfl
      rw [h1]
      intro hx
      exact Except.noConfusion hx)
    (of_decide_eq_true (by with_unfolding_all rfl))
    (by with_unfolding_all rfl)
    (of_decide_eq_true (by with_unfolding_all rfl))
